import Mathlib

/-!
Formal model of `src/lstore/db.py`: the `Database` lifecycle operations
(`open`, `close`, `create_table`, `drop_table`, `get_table`) and the
persistence layer (`convert_to_serializable`, `rehydrate`).

Python values are modelled by one unityped universe `PyTree` (Python is
unityped): scalars, dicts, lists, and objects carrying a class name and a
`__dict__`.  Floats are omitted from the universe (no claim involves them);
dicts are association lists in insertion order (CPython dicts preserve
insertion order and, over the states exercised here, have distinct keys).

`convert_to_serializable` tracks `id(obj)` in a `seen` set, so it is
modelled over an explicit object graph: a heap mapping object ids (`Nat`)
to nodes (`PyNode`) whose children are ids.  The Python function recurses
on the object graph; the model takes a fuel argument, and the termination
theorem for claim C2 shows a sufficient fuel computed from the heap.
-/

namespace LStoreDB

/- Serialized / in-memory Python values as trees.  `TreeList` and
`TreePairs` are the spine types for list elements and dict entries
(a mutual inductive rather than a nested one, so that structural
recursion and decidable equality are available). -/
mutual
inductive PyTree where
  | pstr (x : String)
  | pint (n : Int)
  | pbool (b : Bool)
  | pnull
  | pdict (entries : TreePairs)
  | plist (xs : TreeList)
  | pobj (typeName : String) (fields : TreePairs)
deriving DecidableEq

inductive TreeList where
  | nil
  | cons (head : PyTree) (tail : TreeList)
deriving DecidableEq

inductive TreePairs where
  | nil
  | cons (key : PyTree) (val : PyTree) (tail : TreePairs)
deriving DecidableEq
end

/-- Nodes of the live Python object graph walked by
`convert_to_serializable`.  Children are object ids.  `nobj` is any object
with a `__dict__` (covering `Table`, `Index`, `Page`, `Bufferpool`, ...,
distinguished by their class name, as the Python code distinguishes them
by `isinstance` / `type(obj).__name__`); `nother` is an object without a
`__dict__`, serialized via `str(obj)`. -/
inductive PyNode where
  | nstr (x : String)
  | nint (n : Int)
  | nbool (b : Bool)
  | nnone
  | ndict (entries : List (Nat × Nat))
  | nlist (xs : List Nat)
  | ntuple (xs : List Nat)
  | nset (xs : List Nat)
  | nobj (typeName : String) (fields : List (String × Nat))
  | nother (typeName : String) (reprStr : String)
deriving DecidableEq

/-- A heap: finite association of object ids to nodes. -/
abbrev Heap := List (Nat × PyNode)

/-- Heap lookup by object id (first match). -/
def hlookup : Heap → Nat → Option PyNode
  | [], _ => none
  | (k, v) :: rest, i => if k = i then some v else hlookup rest i

/-- Python `type(obj).__name__`, used by the recursion marker. -/
def nodeTypeName : PyNode → String
  | .nstr _ => "str"
  | .nint _ => "int"
  | .nbool _ => "bool"
  | .nnone => "NoneType"
  | .ndict _ => "dict"
  | .nlist _ => "list"
  | .ntuple _ => "tuple"
  | .nset _ => "set"
  | .nobj t _ => t
  | .nother t _ => t

/-- The ids a node refers to directly. -/
def refsOf : PyNode → List Nat
  | .ndict es => es.map Prod.fst ++ es.map Prod.snd
  | .nlist xs => xs
  | .ntuple xs => xs
  | .nset xs => xs
  | .nobj _ fs => fs.map Prod.snd
  | _ => []

/-- A heap is closed when every reference resolves (always true of a live
Python object graph). -/
def closedB (h : Heap) : Bool :=
  h.all (fun p => (refsOf p.2).all (fun r => (h.map Prod.fst).contains r))

/-- Conversion of the elements of a list / tuple / set
(`[convert_to_serializable(item, seen) for item in obj]`). -/
def convIds (f : Nat → Option PyTree) : List Nat → Option TreeList
  | [] => some .nil
  | x :: xs =>
    match f x, convIds f xs with
    | some v, some vs => some (.cons v vs)
    | _, _ => none

/-- Conversion of dict entries
(`{convert_to_serializable(k, seen): convert_to_serializable(v, seen) ...}`).
The Python comprehension builds a dict (merging key collisions); over the
distinct-key dicts exercised here the association list is the same. -/
def convPairs (f : Nat → Option PyTree) : List (Nat × Nat) → Option TreePairs
  | [] => some .nil
  | (k, v) :: rest =>
    match f k, f v, convPairs f rest with
    | some kt, some vt, some vs => some (.cons kt vt vs)
    | _, _, _ => none

/-- Conversion of `obj.__dict__`.  Attribute names are Python strings and
`convert_to_serializable` maps a string to itself, so they are emitted
directly as string keys. -/
def convFields (f : Nat → Option PyTree) : List (String × Nat) → Option TreePairs
  | [] => some .nil
  | (k, r) :: rest =>
    match f r, convFields f rest with
    | some vt, some vs => some (.cons (.pstr k) vt vs)
    | _, _ => none

/-- Model of `convert_to_serializable(obj, seen)` from `src/lstore/db.py`.

The Python function first checks `id(obj) in seen` and returns the marker
string without recursing; otherwise it adds the id, dispatches on the kind
of the object, and removes the id before returning (so the functional
`seen` parameter here matches the balanced mutate/restore discipline of
the source).  Scalars return themselves; dicts convert keys and values;
lists, tuples and sets convert their items into a list; `Table`, `Index`
and any other object with a `__dict__` are tagged with
`{"__custom_type__": type name, "state": converted __dict__}` (the three
source branches produce this same shape); objects without a `__dict__`
fall back to `str(obj)`.  The fuel argument makes the graph recursion a
total function; `none` only means the fuel ran out (or a reference
dangled, impossible in a live graph). -/
def convertFuel : Nat → Heap → List Nat → Nat → Option PyTree
  | 0, _, _, _ => none
  | fuel + 1, h, seen, i =>
    match hlookup h i with
    | none => none
    | some node =>
      if i ∈ seen then
        some (.pstr ("<recursion: " ++ nodeTypeName node ++ ">"))
      else
        match node with
        | .nstr x => some (.pstr x)
        | .nint n => some (.pint n)
        | .nbool b => some (.pbool b)
        | .nnone => some .pnull
        | .ndict es => (convPairs (convertFuel fuel h (i :: seen)) es).map .pdict
        | .nlist xs => (convIds (convertFuel fuel h (i :: seen)) xs).map .plist
        | .ntuple xs => (convIds (convertFuel fuel h (i :: seen)) xs).map .plist
        | .nset xs => (convIds (convertFuel fuel h (i :: seen)) xs).map .plist
        | .nobj t fs =>
          (convFields (convertFuel fuel h (i :: seen)) fs).map (fun st =>
            .pdict (.cons (.pstr "__custom_type__") (.pstr t)
              (.cons (.pstr "state") (.pdict st) .nil)))
        | .nother _ r => some (.pstr r)

/-- Number of heap ids not yet on the active path: the fuel bound used by
the termination theorem. -/
def freeCount (h : Heap) (seen : List Nat) : Nat :=
  ((h.map Prod.fst).toFinset \ seen.toFinset).card

/-- First value stored under `key` in a dict (Python `obj[key]` /
`"k" in obj`). -/
def plookup : TreePairs → PyTree → Option PyTree
  | .nil, _ => none
  | .cons k v rest, key => if k = key then some v else plookup rest key

/-- Lookup in the per-entry rehydration results of a dict. -/
def plookupRes : List (PyTree × Option PyTree) → PyTree → Option (Option PyTree)
  | [], _ => none
  | (k, r) :: rest, key => if k = key then some r else plookupRes rest key

/-- Collect the per-entry rehydration results of a dict into a dict,
failing if any entry failed (the plain
`{k: rehydrate(v) for k, v in obj.items()}` branch evaluates every value). -/
def collectPairs : List (PyTree × Option PyTree) → Option TreePairs
  | [] => some .nil
  | (k, some v) :: rest => (collectPairs rest).map (.cons k v)
  | (_, none) :: _ => none

/-- Model of `instance = Table(); instance.__dict__.update(rehydrate(state))`
(and the `Index` twin).  Modelled from the spec for the part not under
`src/`: the `Table` and `Index` classes are imported from `lstore.table` /
`lstore.index`, which are absent; per §4.4 of the spec, load "constructs an
empty instance of the tagged kind, then recursively rehydrates and assigns
its fields", and the `rehydrate` docstring assumes the zero-argument
constructors succeed — so an empty instance has no fields and `update`
leaves exactly the rehydrated state.  `update` on a rehydrated state that
is not a mapping raises `TypeError`, modelled as `none`; a missing
`"state"` key defaults to `{}` (`obj.get("state", {})`), leaving the
instance empty. -/
def rebuildInstance (typeName : String) : Option (Option PyTree) → Option PyTree
  | some (some (.pdict fs)) => some (.pobj typeName fs)
  | some _ => none
  | none => some (.pobj typeName .nil)

/- Model of `rehydrate(obj)` from `src/lstore/db.py`.

A dict containing the key `"__custom_type__"` with value `"Table"` or
`"Index"` is rebuilt into an instance from its `"state"`; a dict with any
other tag value falls through to the generic branch, which keeps every key
unchanged (keys are not rehydrated) and rehydrates every value — so the
tagged mapping stays a plain dict.  Lists rehydrate their items; anything
else is returned unchanged.  `rehydratePairs` records each entry's result
separately so that, exactly as in the source, the `Table` / `Index`
branches depend only on the `"state"` entry. -/
mutual
def rehydrate : PyTree → Option PyTree
  | .pstr x => some (.pstr x)
  | .pint n => some (.pint n)
  | .pbool b => some (.pbool b)
  | .pnull => some .pnull
  | .pobj t fs => some (.pobj t fs)
  | .plist xs => (rehydrateList xs).map .plist
  | .pdict es =>
    match plookup es (.pstr "__custom_type__") with
    | some typ =>
      if typ = .pstr "Table" then
        rebuildInstance "Table" (plookupRes (rehydratePairs es) (.pstr "state"))
      else if typ = .pstr "Index" then
        rebuildInstance "Index" (plookupRes (rehydratePairs es) (.pstr "state"))
      else (collectPairs (rehydratePairs es)).map .pdict
    | none => (collectPairs (rehydratePairs es)).map .pdict

def rehydrateList : TreeList → Option TreeList
  | .nil => some .nil
  | .cons h t =>
    match rehydrate h, rehydrateList t with
    | some v, some vs => some (.cons v vs)
    | _, _ => none

def rehydratePairs : TreePairs → List (PyTree × Option PyTree)
  | .nil => []
  | .cons k v t => (k, rehydrate v) :: rehydratePairs t
end

/-- Whether a value is an object instance (as opposed to a plain dict). -/
def isObjTree : PyTree → Bool
  | .pobj _ _ => true
  | _ => false

/- Tree-level restriction of `convert_to_serializable`.  `Database.close`
applies the serializer to each stored table value; values in the `DB`
model below are trees (no aliasing, no identity), so the `seen` set of
the source can never contain the id of the object being visited and the
recursion-marker branch is unreachable; all other branches are as in
`convertFuel`. -/
mutual
def convertT : PyTree → PyTree
  | .pstr x => .pstr x
  | .pint n => .pint n
  | .pbool b => .pbool b
  | .pnull => .pnull
  | .pdict es => .pdict (convertTPairs es)
  | .plist xs => .plist (convertTList xs)
  | .pobj t fs =>
    .pdict (.cons (.pstr "__custom_type__") (.pstr t)
      (.cons (.pstr "state") (.pdict (convertTPairs fs)) .nil))

def convertTList : TreeList → TreeList
  | .nil => .nil
  | .cons h t => .cons (convertT h) (convertTList t)

def convertTPairs : TreePairs → TreePairs
  | .nil => .nil
  | .cons k v t => .cons (convertT k) (convertT v) (convertTPairs t)
end

/-- Content of a persisted table file.  Modelled from the spec for the
external `msgpack` library: `packb` and `unpackb` are mutually inverse on
the serializable fragment, so a non-empty file is modelled by the tree it
encodes; `empty` is a zero-byte file. -/
inductive FileData where
  | empty
  | packed (blob : PyTree)
deriving DecidableEq

/-- Filesystem operations a `Database` method performs, in order. -/
inductive FsOp where
  | fwrite (path : String) (data : FileData)
  | frename (src : String) (dst : String)
  | fremove (path : String)
deriving DecidableEq

/-- Whether an operation is a plain write (not a rename). -/
def isDirectWrite : FsOp → Bool
  | .fwrite _ _ => true
  | _ => false

/-- Whether an operation is a rename. -/
def isRename : FsOp → Bool
  | .frename _ _ => true
  | _ => false

/-- Modelled from the spec: a Bufferpool frame.  The `Bufferpool` class is
imported from `lstore.bufferpool`, which is absent from `src/`; per §3 of
the spec a frame carries a dirty flag (pin count, recency and page bytes
are irrelevant to the claims settled here). -/
structure Frame where
  dirty : Bool
deriving DecidableEq

/-- Modelled from the spec: the Bufferpool, constructed with a fixed frame
capacity (`Bufferpool(bufferpool_size)` in `Database.__init__`). -/
structure BufferpoolM where
  capacity : Nat
  frames : List Frame
deriving DecidableEq

/-- Modelled from the spec, §4.1: `flush_all` writes every dirty resident
frame back and clears the dirty flags. -/
def flushAll (bp : BufferpoolM) : BufferpoolM :=
  { bp with frames := bp.frames.map (fun f => { f with dirty := false }) }

/-- State of a `Database` object: the name → table mapping, the directory
path (`None` until `open` sets it), and the bufferpool. -/
structure DB where
  tables : List (String × PyTree)
  db_path : Option String
  bufferpool : BufferpoolM
deriving DecidableEq

/-- Model of `Database.__init__(bufferpool_size=10)`: empty table mapping,
no path, a fresh bufferpool of the given capacity. -/
def dbInit (size : Nat) : DB := ⟨[], none, ⟨size, []⟩⟩

/-- Typed failures raised by the modelled methods.  The spec names the
first one `NoPathSet`; the code realizes it as
`ValueError("Database path is not set.")`.  `duplicateTable` is named by
the spec's error taxonomy but never raised by the code.  `joinNonePath`
and `updateNonMapping` are the `TypeError`s from `os.path.join(None, ...)`
and from `dict.update` on a non-mapping. -/
inductive DBError where
  | noPathSet
  | invalidKeyIndex
  | duplicateTable
  | joinNonePath
  | updateNonMapping
deriving DecidableEq

/-- Python `os.path.join(p, name)` for the paths used here. -/
def tblPath (p name : String) : String := p ++ "/" ++ name ++ ".tbl"

/-- Model of `Database.close`.  `if not self.db_path:` raises for both
`None` and the empty string (falsy); otherwise one write per registered
table, of the msgpack blob of its serialized state, directly to
`os.path.join(self.db_path, f"{table_name}.tbl")`.  The method mutates no
field of the database, so the state is returned unchanged alongside the
ordered file operations. -/
def dbClose (db : DB) : Except DBError (DB × List FsOp) :=
  match db.db_path with
  | none => .error .noPathSet
  | some p =>
    if p = "" then .error .noPathSet
    else
      .ok (db, db.tables.map (fun nt =>
        .fwrite (tblPath p nt.1) (.packed (convertT nt.2))))

/-- Python `filename.endswith(".tbl")`.  (Lean's built-in
`String.endsWith` is opaque to the kernel, so the comparison is modelled
over the character list.) -/
def strEndsWith (s suffix : String) : Bool :=
  decide (suffix.data.length ≤ s.data.length) &&
    (s.data.drop (s.data.length - suffix.data.length) == suffix.data)

/-- Python `filename[:-n]` (for `n ≤ len(filename)`). -/
def strDropRight (s : String) (n : Nat) : String :=
  ⟨s.data.take (s.data.length - n)⟩

/-- Warning printed by `Database.open` for a zero-byte table file. -/
def warnMsg (fname : String) : String :=
  "Warning: " ++ fname ++ " is empty. Skipping."

/-- The loop body of `Database.open` over `os.listdir(path)`: files not
ending in `.tbl` are ignored; an empty file is skipped with a warning; a
non-empty file is unpacked and rehydrated, and registered under the file
name without its extension.  A `rehydrate` failure propagates (the loop
in the source would leave earlier tables assigned before raising; the
claims settled here never reach that corner). -/
def openScan : List (String × FileData) → Except DBError (List (String × PyTree) × List String)
  | [] => .ok ([], [])
  | (fname, d) :: rest =>
    if strEndsWith fname ".tbl" then
      match d with
      | .empty =>
        match openScan rest with
        | .ok (ts, ws) => .ok (ts, warnMsg fname :: ws)
        | .error e => .error e
      | .packed blob =>
        match rehydrate blob with
        | some t =>
          match openScan rest with
          | .ok (ts, ws) => .ok ((strDropRight fname 4, t) :: ts, ws)
          | .error e => .error e
        | none => .error .updateNonMapping
    else openScan rest

/-- What `Database.open` finds at `path`: either the directory is absent,
or it exists with a listing. -/
inductive DirState where
  | absent
  | present (files : List (String × FileData))

/-- Model of `Database.open(path)`.  `self.db_path = path` is set first;
an absent directory is created and the method returns with the table
mapping untouched; otherwise `self.tables` is reset and refilled from the
`.tbl` files.  The second component collects the emitted warnings. -/
def dbOpen (db : DB) (path : String) (d : DirState) : Except DBError (DB × List String) :=
  match d with
  | .absent => .ok ({ db with db_path := some path }, [])
  | .present files =>
    match openScan files with
    | .ok (ts, ws) => .ok ({ db with db_path := some path, tables := ts }, ws)
    | .error e => .error e

/-- Modelled from the spec: `Table(name, num_columns, key_index)`.  The
`Table` class is not under `src/`; §6 of the spec states that
`create_table` "fails with `InvalidKeyIndex` if `key_index` is outside
`[0, num_columns)`", and since `Database.create_table` itself performs no
check, that validation is modelled in the constructor.  A successful
construction yields a fresh empty table carrying the §3 metadata. -/
def mkTable (name : String) (num_columns key_index : Int) : Except DBError PyTree :=
  if 0 ≤ key_index ∧ key_index < num_columns then
    .ok (.pobj "Table"
      (.cons (.pstr "name") (.pstr name)
        (.cons (.pstr "num_columns") (.pint num_columns)
          (.cons (.pstr "key") (.pint key_index)
            (.cons (.pstr "next_rid") (.pint 0) .nil)))))
  else .error .invalidKeyIndex

/-- Python `self.tables[name] = table`: replace an existing binding in
place, else append. -/
def assocSet : List (String × PyTree) → String → PyTree → List (String × PyTree)
  | [], n, t => [(n, t)]
  | (k, v) :: rest, n, t =>
    if k = n then (n, t) :: rest else (k, v) :: assocSet rest n t

/-- Python `name in self.tables`. -/
def assocHas (ts : List (String × PyTree)) (n : String) : Bool :=
  ts.any (fun p => p.1 == n)

/-- Python `self.tables.get(name, None)`. -/
def assocLookup : List (String × PyTree) → String → Option PyTree
  | [], _ => none
  | (k, v) :: rest, n => if k = n then some v else assocLookup rest n

/-- Python `del self.tables[name]` (dict keys are unique, so removing the
one binding is filtering the name out). -/
def assocRemove (ts : List (String × PyTree)) (n : String) : List (String × PyTree) :=
  ts.filter (fun p => !(p.1 == n))

/-- Model of `Database.create_table(name, num_columns, key_index)`:
construct the table and register it under `name` — overwriting any
existing registration, since the source performs no duplicate check. -/
def createTable (db : DB) (name : String) (num_columns key_index : Int) :
    Except DBError (DB × PyTree) :=
  match mkTable name num_columns key_index with
  | .error e => .error e
  | .ok t => .ok ({ db with tables := assocSet db.tables name t }, t)

/-- Model of `Database.drop_table(name)`: if the name is registered, the
binding is deleted and the backing file removed
(`os.remove(os.path.join(self.db_path, f"{name}.tbl"))`); otherwise
nothing happens.  With no path set, `os.path.join(None, ...)` raises
`TypeError` (after the `del`; no claim reaches that corner). -/
def dropTable (db : DB) (name : String) : Except DBError (DB × List FsOp) :=
  if assocHas db.tables name then
    match db.db_path with
    | none => .error .joinNonePath
    | some p =>
      .ok ({ db with tables := assocRemove db.tables name },
        [.fremove (tblPath p name)])
  else .ok (db, [])

/-- Model of `Database.get_table(name)`: `self.tables.get(name, None)`.
A total function — the method can never raise. -/
def getTable (db : DB) (name : String) : Option PyTree :=
  assocLookup db.tables name

/-- Scalars admissible as dict keys in the round-trip class (Python keys
must be hashable; table state uses string and integer keys). -/
inductive GScalar where
  | gs (x : String)
  | gi (n : Int)
  | gb (b : Bool)
  | gnull
deriving DecidableEq

/- The class of object graphs on which the save/load round trip is exact:
scalars, lists, scalar-keyed dicts, and `Table` / `Index` instances whose
`__dict__` has string attribute names — assembled as a tree (each
constituent object distinct, no shared references, hence no cycles).
Tuples, sets, other object kinds and back-references are excluded: the
counterexample for claim C1 shows the round trip loses them. -/
mutual
inductive GoodVal where
  | scal (x : GScalar)
  | glist (xs : GoodList)
  | gdict (kvs : GoodPairs)
  | gtable (fs : GoodFields)
  | gindex (fs : GoodFields)
deriving DecidableEq

inductive GoodList where
  | nil
  | cons (head : GoodVal) (tail : GoodList)
deriving DecidableEq

inductive GoodPairs where
  | nil
  | cons (key : GScalar) (val : GoodVal) (tail : GoodPairs)
deriving DecidableEq

inductive GoodFields where
  | nil
  | cons (key : String) (val : GoodVal) (tail : GoodFields)
deriving DecidableEq
end

/-- Heap node of a scalar. -/
def scalarNode : GScalar → PyNode
  | .gs x => .nstr x
  | .gi n => .nint n
  | .gb b => .nbool b
  | .gnull => .nnone

/-- Serialized form of a scalar (scalars serialize to themselves). -/
def scalarTree : GScalar → PyTree
  | .gs x => .pstr x
  | .gi n => .pint n
  | .gb b => .pbool b
  | .gnull => .pnull

/- Lay a `GoodVal` out as a live object graph: every constituent object
gets a fresh id, counting up from `c`; the root of `alloc v c` is `c` and
the next free id is returned.  Dict keys are themselves objects and get
their own ids; attribute names are strings stored inside the `__dict__`
node. -/
mutual
def alloc : GoodVal → Nat → Heap × Nat
  | .scal x, c => ([(c, scalarNode x)], c + 1)
  | .glist xs, c =>
    let r := allocL xs (c + 1)
    ((c, .nlist r.2.1) :: r.1, r.2.2)
  | .gdict kvs, c =>
    let r := allocD kvs (c + 1)
    ((c, .ndict r.2.1) :: r.1, r.2.2)
  | .gtable fs, c =>
    let r := allocF fs (c + 1)
    ((c, .nobj "Table" r.2.1) :: r.1, r.2.2)
  | .gindex fs, c =>
    let r := allocF fs (c + 1)
    ((c, .nobj "Index" r.2.1) :: r.1, r.2.2)

def allocL : GoodList → Nat → Heap × List Nat × Nat
  | .nil, c => ([], [], c)
  | .cons v vs, c =>
    let rv := alloc v c
    let rr := allocL vs rv.2
    (rv.1 ++ rr.1, c :: rr.2.1, rr.2.2)

def allocD : GoodPairs → Nat → Heap × List (Nat × Nat) × Nat
  | .nil, c => ([], [], c)
  | .cons k v kvs, c =>
    let rv := alloc v (c + 1)
    let rr := allocD kvs rv.2
    ((c, scalarNode k) :: rv.1 ++ rr.1, (c, c + 1) :: rr.2.1, rr.2.2)

def allocF : GoodFields → Nat → Heap × List (String × Nat) × Nat
  | .nil, c => ([], [], c)
  | .cons k v fs, c =>
    let rv := alloc v c
    let rr := allocF fs rv.2
    (rv.1 ++ rr.1, (k, c) :: rr.2.1, rr.2.2)
end

/- The serialized tree `convert_to_serializable` produces on such a graph,
and the value `rehydrate` gives back after the msgpack round trip:
`convertPure` follows the serializer's branches (lists to lists, dicts
convert keys and values, instances to tagged dicts over their `__dict__`),
`loadOf` follows the loader's (tags `Table` / `Index` back to instances,
everything else structural). -/
mutual
def convertPure : GoodVal → PyTree
  | .scal x => scalarTree x
  | .glist xs => .plist (convertPureL xs)
  | .gdict kvs => .pdict (convertPureD kvs)
  | .gtable fs =>
    .pdict (.cons (.pstr "__custom_type__") (.pstr "Table")
      (.cons (.pstr "state") (.pdict (convertPureF fs)) .nil))
  | .gindex fs =>
    .pdict (.cons (.pstr "__custom_type__") (.pstr "Index")
      (.cons (.pstr "state") (.pdict (convertPureF fs)) .nil))

def convertPureL : GoodList → TreeList
  | .nil => .nil
  | .cons v vs => .cons (convertPure v) (convertPureL vs)

def convertPureD : GoodPairs → TreePairs
  | .nil => .nil
  | .cons k v kvs => .cons (scalarTree k) (convertPure v) (convertPureD kvs)

def convertPureF : GoodFields → TreePairs
  | .nil => .nil
  | .cons k v fs => .cons (.pstr k) (convertPure v) (convertPureF fs)
end

mutual
def loadOf : GoodVal → PyTree
  | .scal x => scalarTree x
  | .glist xs => .plist (loadOfL xs)
  | .gdict kvs => .pdict (loadOfD kvs)
  | .gtable fs => .pobj "Table" (loadOfF fs)
  | .gindex fs => .pobj "Index" (loadOfF fs)

def loadOfL : GoodList → TreeList
  | .nil => .nil
  | .cons v vs => .cons (loadOf v) (loadOfL vs)

def loadOfD : GoodPairs → TreePairs
  | .nil => .nil
  | .cons k v kvs => .cons (scalarTree k) (loadOf v) (loadOfD kvs)

def loadOfF : GoodFields → TreePairs
  | .nil => .nil
  | .cons k v fs => .cons (.pstr k) (loadOf v) (loadOfF fs)
end

/- No dict key or attribute name in the value is the literal string
`"__custom_type__"` — otherwise the loader would mistake a plain dict for
a tagged one. -/
mutual
def noTag : GoodVal → Bool
  | .scal _ => true
  | .glist xs => noTagL xs
  | .gdict kvs => noTagD kvs
  | .gtable fs => noTagF fs
  | .gindex fs => noTagF fs

def noTagL : GoodList → Bool
  | .nil => true
  | .cons v vs => noTag v && noTagL vs

def noTagD : GoodPairs → Bool
  | .nil => true
  | .cons k v kvs => !(k == .gs "__custom_type__") && noTag v && noTagD kvs

def noTagF : GoodFields → Bool
  | .nil => true
  | .cons k v fs => !(k == "__custom_type__") && noTag v && noTagF fs
end

/-- Keys of a heap segment lie in `[lo, hi)` and are strictly increasing
(the layout `alloc` produces). -/
def SpanOK : Heap → Nat → Nat → Prop
  | [], lo, hi => lo ≤ hi
  | (k, _) :: rest, lo, hi => lo ≤ k ∧ k < hi ∧ SpanOK rest (k + 1) hi

/-! Concrete fixtures used by witnesses and counterexamples. -/

/-- A cyclic object graph: a `Table` whose `__dict__` holds the shared
`Bufferpool`, which refers back to the table (and the table also refers
to itself) — the back-reference shape named by the spec. -/
def hcyc : Heap :=
  [(0, .nobj "Table" [("bufferpool", 1), ("self", 0)]),
   (1, .nobj "Bufferpool" [("owner", 0)])]

/-- An acyclic table graph whose state holds a `Page` object: id 0 is the
`Table`, its `"page"` attribute is the `Page` at id 2. -/
def hPage : Heap :=
  [(0, .nobj "Table" [("name", 1), ("page", 2)]),
   (1, .nstr "t"),
   (2, .nobj "Page" [("data", 3)]),
   (3, .nint 7)]

/-- The blob `convert_to_serializable` produces on `hPage`. -/
def pageBlob : PyTree :=
  .pdict (.cons (.pstr "__custom_type__") (.pstr "Table")
    (.cons (.pstr "state")
      (.pdict (.cons (.pstr "name") (.pstr "t")
        (.cons (.pstr "page")
          (.pdict (.cons (.pstr "__custom_type__") (.pstr "Page")
            (.cons (.pstr "state")
              (.pdict (.cons (.pstr "data") (.pint 7) .nil)) .nil)))
          .nil)))
      .nil))

/-- What the `Page` field rehydrates to: a tagged plain dict, not a
`Page` instance. -/
def pageReloaded : PyTree :=
  .pdict (.cons (.pstr "__custom_type__") (.pstr "Page")
    (.cons (.pstr "state")
      (.pdict (.cons (.pstr "data") (.pint 7) .nil)) .nil))

/-- A dict tagged with `__custom_type__` over a given state. -/
def taggedDict (t : String) (st : TreePairs) : PyTree :=
  .pdict (.cons (.pstr "__custom_type__") (.pstr t)
    (.cons (.pstr "state") (.pdict st) .nil))

/-- State dict used by the C6 witness. -/
def stW : TreePairs := .cons (.pstr "num") (.pint 5) .nil

/-- A registered table value used by fixtures. -/
def tFix : PyTree := .pobj "Table" (.cons (.pstr "next_rid") (.pint 0) .nil)

/-- A database with one registered table, a set path, and a dirty
bufferpool frame. -/
def dbDirty : DB := ⟨[("t", tFix)], some "d", ⟨10, [⟨true⟩]⟩⟩

/-- A database with one registered table named `"t"` (an old table that a
second `create_table("t", ...)` would silently replace). -/
def dbOld : DB :=
  ⟨[("t", .pobj "Table" (.cons (.pstr "num_columns") (.pint 9) .nil))],
   some "d", ⟨10, []⟩⟩

/-- Directory listing used by the C8 witness: a loadable table file, a
zero-byte table file, and an unrelated file. -/
def filesW : List (String × FileData) :=
  [("a.tbl", .packed (.pdict .nil)), ("empty.tbl", .empty), ("skip.txt", .empty)]

/-- Good-class table used by the C1 witness: metadata scalars, a nested
`Index` instance holding an int-keyed dict, and a list. -/
def vW : GoodVal :=
  .gtable (.cons "name" (.scal (.gs "grades"))
    (.cons "index" (.gindex (.cons "m"
        (.gdict (.cons (.gi 1) (.scal (.gi 0)) .nil)) .nil))
      (.cons "rows" (.glist (.cons (.scal (.gi 3)) .nil)) .nil)))

/-! Heap lookup and closedness lemmas. -/

theorem hlookup_mem {h : Heap} {i : Nat} {n : PyNode}
    (hl : hlookup h i = some n) : (i, n) ∈ h := by
  induction h with
  | nil => simp [hlookup] at hl
  | cons p rest ih =>
    obtain ⟨k, v⟩ := p
    by_cases hk : k = i
    · subst hk
      simp [hlookup] at hl
      simp [hl]
    · simp only [hlookup, if_neg hk] at hl
      exact List.mem_cons_of_mem _ (ih hl)

theorem hlookup_isSome_of_mem {h : Heap} {i : Nat}
    (hm : i ∈ h.map Prod.fst) : (hlookup h i).isSome := by
  induction h with
  | nil => simp at hm
  | cons p rest ih =>
    obtain ⟨k, v⟩ := p
    by_cases hk : k = i
    · simp [hlookup, hk]
    · simp only [List.map_cons, List.mem_cons] at hm
      rcases hm with hm | hm

      · exact absurd hm.symm hk
      · simp only [hlookup, if_neg hk]
        exact ih hm

theorem closed_ref {h : Heap} {i r : Nat} {n : PyNode}
    (hc : closedB h = true) (hl : hlookup h i = some n)
    (hr : r ∈ refsOf n) : (hlookup h r).isSome := by
  have hmem := hlookup_mem hl
  simp only [closedB, List.all_eq_true] at hc
  have h2 := hc _ hmem r hr
  exact hlookup_isSome_of_mem (by simpa using h2)

theorem freeCount_cons_lt {h : Heap} {seen : List Nat} {i : Nat}
    (hk : (hlookup h i).isSome) (hns : i ∉ seen) :
    freeCount h (i :: seen) < freeCount h seen := by
  obtain ⟨n, hn⟩ := Option.isSome_iff_exists.mp hk
  have hkeys : i ∈ h.map Prod.fst := by
    have := hlookup_mem hn
    exact List.mem_map_of_mem Prod.fst this
  have hmemd : i ∈ (h.map Prod.fst).toFinset \ seen.toFinset := by
    simp [Finset.mem_sdiff, List.mem_toFinset, hkeys, hns]
  have heq : (h.map Prod.fst).toFinset \ (i :: seen).toFinset =
      ((h.map Prod.fst).toFinset \ seen.toFinset).erase i := by
    ext a
    simp only [List.toFinset_cons, Finset.mem_sdiff, Finset.mem_insert,
      Finset.mem_erase, List.mem_toFinset]
    tauto
  unfold freeCount
  rw [heq]
  exact Finset.card_erase_lt_of_mem hmemd

/-! Totality of the helper traversals, given totality on the members. -/

theorem convIds_isSome {f : Nat → Option PyTree} :
    ∀ {xs : List Nat}, (∀ x ∈ xs, (f x).isSome) → (convIds f xs).isSome := by
  intro xs
  induction xs with
  | nil => intro _; simp [convIds]
  | cons x rest ih =>
    intro hall
    obtain ⟨v, hv⟩ := Option.isSome_iff_exists.mp (hall x (by simp))
    obtain ⟨vs, hvs⟩ := Option.isSome_iff_exists.mp
      (ih (fun y hy => hall y (List.mem_cons_of_mem _ hy)))
    simp [convIds, hv, hvs]

theorem convPairs_isSome {f : Nat → Option PyTree} :
    ∀ {es : List (Nat × Nat)},
      (∀ p ∈ es, (f p.1).isSome ∧ (f p.2).isSome) → (convPairs f es).isSome := by
  intro es
  induction es with
  | nil => intro _; simp [convPairs]
  | cons p rest ih =>
    intro hall
    obtain ⟨k, v⟩ := p
    obtain ⟨hk, hv⟩ := hall (k, v) (by simp)
    obtain ⟨kt, hkt⟩ := Option.isSome_iff_exists.mp hk
    obtain ⟨vt, hvt⟩ := Option.isSome_iff_exists.mp hv
    obtain ⟨vs, hvs⟩ := Option.isSome_iff_exists.mp
      (ih (fun q hq => hall q (List.mem_cons_of_mem _ hq)))
    simp [convPairs, hkt, hvt, hvs]

theorem convFields_isSome {f : Nat → Option PyTree} :
    ∀ {fs : List (String × Nat)},
      (∀ p ∈ fs, (f p.2).isSome) → (convFields f fs).isSome := by
  intro fs
  induction fs with
  | nil => intro _; simp [convFields]
  | cons p rest ih =>
    intro hall
    obtain ⟨k, r⟩ := p
    obtain ⟨vt, hvt⟩ := Option.isSome_iff_exists.mp (hall (k, r) (by simp))
    obtain ⟨vs, hvs⟩ := Option.isSome_iff_exists.mp
      (ih (fun q hq => hall q (List.mem_cons_of_mem _ hq)))
    simp [convFields, hvt, hvs]

/-! One-step unfolding equations for `convertFuel`. -/

theorem convertFuel_marker {fuel : Nat} {h : Heap} {seen : List Nat} {i : Nat}
    {node : PyNode} (hl : hlookup h i = some node) (hm : i ∈ seen) :
    convertFuel (fuel + 1) h seen i =
      some (.pstr ("<recursion: " ++ nodeTypeName node ++ ">")) := by
  conv_lhs => rw [convertFuel]
  rw [hl]
  simp only [if_pos hm]

theorem convertFuel_nstr {fuel : Nat} {h : Heap} {seen : List Nat} {i : Nat}
    {x : String} (hl : hlookup h i = some (.nstr x)) (hm : i ∉ seen) :
    convertFuel (fuel + 1) h seen i = some (.pstr x) := by
  conv_lhs => rw [convertFuel]
  rw [hl]
  simp only [if_neg hm]

theorem convertFuel_nint {fuel : Nat} {h : Heap} {seen : List Nat} {i : Nat}
    {n : Int} (hl : hlookup h i = some (.nint n)) (hm : i ∉ seen) :
    convertFuel (fuel + 1) h seen i = some (.pint n) := by
  conv_lhs => rw [convertFuel]
  rw [hl]
  simp only [if_neg hm]

theorem convertFuel_nbool {fuel : Nat} {h : Heap} {seen : List Nat} {i : Nat}
    {b : Bool} (hl : hlookup h i = some (.nbool b)) (hm : i ∉ seen) :
    convertFuel (fuel + 1) h seen i = some (.pbool b) := by
  conv_lhs => rw [convertFuel]
  rw [hl]
  simp only [if_neg hm]

theorem convertFuel_nnone {fuel : Nat} {h : Heap} {seen : List Nat} {i : Nat}
    (hl : hlookup h i = some .nnone) (hm : i ∉ seen) :
    convertFuel (fuel + 1) h seen i = some .pnull := by
  conv_lhs => rw [convertFuel]
  rw [hl]
  simp only [if_neg hm]

theorem convertFuel_ndict {fuel : Nat} {h : Heap} {seen : List Nat} {i : Nat}
    {es : List (Nat × Nat)} (hl : hlookup h i = some (.ndict es)) (hm : i ∉ seen) :
    convertFuel (fuel + 1) h seen i =
      (convPairs (convertFuel fuel h (i :: seen)) es).map .pdict := by
  conv_lhs => rw [convertFuel]
  rw [hl]
  simp only [if_neg hm]

theorem convertFuel_nlist {fuel : Nat} {h : Heap} {seen : List Nat} {i : Nat}
    {xs : List Nat} (hl : hlookup h i = some (.nlist xs)) (hm : i ∉ seen) :
    convertFuel (fuel + 1) h seen i =
      (convIds (convertFuel fuel h (i :: seen)) xs).map .plist := by
  conv_lhs => rw [convertFuel]
  rw [hl]
  simp only [if_neg hm]

theorem convertFuel_ntuple {fuel : Nat} {h : Heap} {seen : List Nat} {i : Nat}
    {xs : List Nat} (hl : hlookup h i = some (.ntuple xs)) (hm : i ∉ seen) :
    convertFuel (fuel + 1) h seen i =
      (convIds (convertFuel fuel h (i :: seen)) xs).map .plist := by
  conv_lhs => rw [convertFuel]
  rw [hl]
  simp only [if_neg hm]

theorem convertFuel_nset {fuel : Nat} {h : Heap} {seen : List Nat} {i : Nat}
    {xs : List Nat} (hl : hlookup h i = some (.nset xs)) (hm : i ∉ seen) :
    convertFuel (fuel + 1) h seen i =
      (convIds (convertFuel fuel h (i :: seen)) xs).map .plist := by
  conv_lhs => rw [convertFuel]
  rw [hl]
  simp only [if_neg hm]

theorem convertFuel_nobj {fuel : Nat} {h : Heap} {seen : List Nat} {i : Nat}
    {t : String} {fs : List (String × Nat)}
    (hl : hlookup h i = some (.nobj t fs)) (hm : i ∉ seen) :
    convertFuel (fuel + 1) h seen i =
      (convFields (convertFuel fuel h (i :: seen)) fs).map (fun st =>
        .pdict (.cons (.pstr "__custom_type__") (.pstr t)
          (.cons (.pstr "state") (.pdict st) .nil))) := by
  conv_lhs => rw [convertFuel]
  rw [hl]
  simp only [if_neg hm]

theorem convertFuel_nother {fuel : Nat} {h : Heap} {seen : List Nat} {i : Nat}
    {t r : String} (hl : hlookup h i = some (.nother t r)) (hm : i ∉ seen) :
    convertFuel (fuel + 1) h seen i = some (.pstr r) := by
  conv_lhs => rw [convertFuel]
  rw [hl]
  simp only [if_neg hm]

/-- On a closed heap, `convert_to_serializable` reaches a result once the
fuel exceeds the number of heap objects not already on the active path:
the recursion terminates on every object graph, cyclic ones included. -/
theorem convert_total :
    ∀ (n : Nat) (h : Heap) (seen : List Nat) (i : Nat),
      closedB h = true → (hlookup h i).isSome → freeCount h seen ≤ n →
      (convertFuel (n + 1) h seen i).isSome := by
  intro n
  induction n with
  | zero =>
    intro h seen i hc hi hf
    obtain ⟨node, hnode⟩ := Option.isSome_iff_exists.mp hi
    by_cases hmem : i ∈ seen
    · rw [convertFuel_marker hnode hmem]
      rfl
    · exfalso
      have := freeCount_cons_lt hi hmem
      omega
  | succ m ih =>
    intro h seen i hc hi hf
    obtain ⟨node, hnode⟩ := Option.isSome_iff_exists.mp hi
    by_cases hmem : i ∈ seen
    · rw [convertFuel_marker hnode hmem]
      rfl
    · have hfree : freeCount h (i :: seen) ≤ m := by
        have := freeCount_cons_lt hi hmem
        omega
      have hchild : ∀ r ∈ refsOf node, (convertFuel (m + 1) h (i :: seen) r).isSome := by
        intro r hr
        exact ih h (i :: seen) r hc (closed_ref hc hnode hr) hfree
      cases node with
      | nstr x => rw [convertFuel_nstr hnode hmem]; rfl
      | nint k => rw [convertFuel_nint hnode hmem]; rfl
      | nbool b => rw [convertFuel_nbool hnode hmem]; rfl
      | nnone => rw [convertFuel_nnone hnode hmem]; rfl
      | ndict es =>
        have hs : (convPairs (convertFuel (m + 1) h (i :: seen)) es).isSome := by
          apply convPairs_isSome
          intro p hp
          constructor
          · exact hchild p.1 (by simp [refsOf]; exact Or.inl ⟨p.2, hp⟩)
          · exact hchild p.2 (by simp [refsOf]; exact Or.inr ⟨p.1, hp⟩)
        obtain ⟨vs, hvs⟩ := Option.isSome_iff_exists.mp hs
        rw [convertFuel_ndict hnode hmem, hvs]
        rfl
      | nlist xs =>
        have hs : (convIds (convertFuel (m + 1) h (i :: seen)) xs).isSome :=
          convIds_isSome (fun x hx => hchild x (by simpa [refsOf] using hx))
        obtain ⟨vs, hvs⟩ := Option.isSome_iff_exists.mp hs
        rw [convertFuel_nlist hnode hmem, hvs]
        rfl
      | ntuple xs =>
        have hs : (convIds (convertFuel (m + 1) h (i :: seen)) xs).isSome :=
          convIds_isSome (fun x hx => hchild x (by simpa [refsOf] using hx))
        obtain ⟨vs, hvs⟩ := Option.isSome_iff_exists.mp hs
        rw [convertFuel_ntuple hnode hmem, hvs]
        rfl
      | nset xs =>
        have hs : (convIds (convertFuel (m + 1) h (i :: seen)) xs).isSome :=
          convIds_isSome (fun x hx => hchild x (by simpa [refsOf] using hx))
        obtain ⟨vs, hvs⟩ := Option.isSome_iff_exists.mp hs
        rw [convertFuel_nset hnode hmem, hvs]
        rfl
      | nobj t fs =>
        have hs : (convFields (convertFuel (m + 1) h (i :: seen)) fs).isSome := by
          apply convFields_isSome
          intro p hp
          exact hchild p.2 (by simp [refsOf]; exact ⟨p.1, hp⟩)
        obtain ⟨vs, hvs⟩ := Option.isSome_iff_exists.mp hs
        rw [convertFuel_nobj hnode hmem, hvs]
        rfl
      | nother t r => rw [convertFuel_nother hnode hmem]; rfl

/-- C2: on every closed object graph — including one with a back-reference
to an object already on the active visit path — `convert_to_serializable`
terminates (with fuel `freeCount h seen + 1` the model returns a result,
a fixed finite tree, so the output is bounded), and on reaching an object
whose identity is already in `seen` it returns the bounded placeholder
marker `"<recursion: ...>"` instead of recursing. -/
theorem spec_c2_cycle_containment (h : Heap) (seen : List Nat) (i : Nat)
    (node : PyNode) (hc : closedB h = true) (hl : hlookup h i = some node) :
    (convertFuel (freeCount h seen + 1) h seen i).isSome = true ∧
    (∀ fuel : Nat, i ∈ seen →
      convertFuel (fuel + 1) h seen i =
        some (.pstr ("<recursion: " ++ nodeTypeName node ++ ">"))) := by
  constructor
  · exact convert_total (freeCount h seen) h seen i hc (by simp [hl]) le_rfl
  · intro fuel hm
    exact convertFuel_marker hl hm

/-- Witness for C2 on the cyclic graph `hcyc` (a table referencing the
shared bufferpool, which references the table back): serialization
reaches a result, and with the table on the active path the marker is
emitted. -/
theorem spec_c2_cycle_containment_witness :
    (convertFuel (freeCount hcyc [0] + 1) hcyc [0] 0).isSome = true ∧
    convertFuel 1 hcyc [0] 0 = some (.pstr "<recursion: Table>") := by
  have h := spec_c2_cycle_containment hcyc [0] 0
    (.nobj "Table" [("bufferpool", 1), ("self", 0)]) (by decide) rfl
  exact ⟨h.1, h.2 0 (by decide)⟩

/-! Behavior of `rehydrate` on tagged dicts. -/

/-- Unfolding of `rehydrate` on `{"__custom_type__": t, "state": st}`:
the `"Table"` and `"Index"` tags rebuild an instance from the rehydrated
state; any other tag keeps the dict a dict, keys unchanged, state value
rehydrated. -/
theorem rehydrate_tagged (t : String) (st : TreePairs) :
    rehydrate (taggedDict t st) =
      if t = "Table" then rebuildInstance "Table" (some (rehydrate (.pdict st)))
      else if t = "Index" then rebuildInstance "Index" (some (rehydrate (.pdict st)))
      else (rehydrate (.pdict st)).map (fun v =>
        .pdict (.cons (.pstr "__custom_type__") (.pstr t)
          (.cons (.pstr "state") v .nil))) := by
  show
    (if (PyTree.pstr t) = (.pstr "Table") then
       rebuildInstance "Table" (some (rehydrate (.pdict st)))
     else if (PyTree.pstr t) = (.pstr "Index") then
       rebuildInstance "Index" (some (rehydrate (.pdict st)))
     else
       (collectPairs [(.pstr "__custom_type__", some (.pstr t)),
         (.pstr "state", rehydrate (.pdict st))]).map .pdict) = _
  by_cases hT : t = "Table"
  · subst hT
    rw [if_pos rfl, if_pos rfl]
  · have hT2 : ¬ (PyTree.pstr t = .pstr "Table") := fun hh => hT (PyTree.pstr.inj hh)
    rw [if_neg hT2, if_neg hT]
    by_cases hI : t = "Index"
    · subst hI
      rw [if_pos rfl, if_pos rfl]
    · have hI2 : ¬ (PyTree.pstr t = .pstr "Index") := fun hh => hI (PyTree.pstr.inj hh)
      rw [if_neg hI2, if_neg hI]
      cases hrs : rehydrate (.pdict st) with
      | none => rfl
      | some v => rfl

/-- C6: `rehydrate` rebuilds an object instance only for the tags
`"Table"` and `"Index"`; a value carrying any other `__custom_type__` tag
(for example a `Page` or `Bufferpool` flattened by the generic `__dict__`
branch of `convert_to_serializable`) comes back as the tagged mapping
itself — a plain dict with its state value rehydrated — never an instance
of the tagged kind. -/
theorem spec_c6_rehydrate_only_table_index (tag : String) (st fs : TreePairs)
    (hst : rehydrate (.pdict st) = some (.pdict fs))
    (hA : tag ≠ "Table") (hB : tag ≠ "Index") :
    rehydrate (taggedDict "Table" st) = some (.pobj "Table" fs) ∧
    rehydrate (taggedDict "Index" st) = some (.pobj "Index" fs) ∧
    rehydrate (taggedDict tag st) = some (taggedDict tag fs) ∧
    isObjTree (taggedDict tag fs) = false := by
  refine ⟨?_, ?_, ?_, rfl⟩
  · rw [rehydrate_tagged, if_pos rfl, hst]
    rfl
  · rw [rehydrate_tagged, if_neg (by decide), if_pos rfl, hst]
    rfl
  · rw [rehydrate_tagged, if_neg hA, if_neg hB, hst]
    rfl

/-- Witness for C6: a dict tagged `"Page"` over the state `{"num": 5}`
rehydrates to the same tagged plain dict, not to a `Page` instance. -/
theorem spec_c6_rehydrate_only_table_index_witness :
    rehydrate (taggedDict "Page" stW) = some (taggedDict "Page" stW) ∧
    isObjTree (taggedDict "Page" stW) = false := by
  have h := spec_c6_rehydrate_only_table_index "Page" stW stW
    (by decide) (by decide) (by decide)
  exact ⟨h.2.2.1, h.2.2.2⟩

/-! Round trip on the good class: `rehydrate` after the serializer (and
the msgpack round trip, which is the identity on the serialized tree)
restores exactly the expected values. -/

theorem scalarTree_ne_tagKey {k : GScalar}
    (hk : (k == GScalar.gs "__custom_type__") = false) :
    ¬ scalarTree k = .pstr "__custom_type__" := by
  cases k with
  | gs s =>
    simp only [scalarTree, PyTree.pstr.injEq]
    simpa using hk
  | gi n => simp [scalarTree]
  | gb b => simp [scalarTree]
  | gnull => simp [scalarTree]

mutual
theorem rehydPure : ∀ (v : GoodVal), noTag v = true →
    rehydrate (convertPure v) = some (loadOf v)
  | .scal x, _ => by cases x <;> rfl
  | .glist xs, h => by
    show rehydrate (.plist (convertPureL xs)) = some (.plist (loadOfL xs))
    conv_lhs => rw [rehydrate]
    rw [rehydPureL xs (by simpa [noTag] using h)]
    rfl
  | .gdict kvs, h => by
    show rehydrate (.pdict (convertPureD kvs)) = some (.pdict (loadOfD kvs))
    have hd := rehydPureD kvs (by simpa [noTag] using h)
    conv_lhs => rw [rehydrate]
    rw [hd.1, hd.2]
    rfl
  | .gtable fs, h => by
    show rehydrate (taggedDict "Table" (convertPureF fs)) = some (.pobj "Table" (loadOfF fs))
    have hf := rehydPureF fs (by simpa [noTag] using h)
    rw [rehydrate_tagged, if_pos rfl]
    conv_lhs => rw [rehydrate]
    rw [hf.1, hf.2]
    rfl
  | .gindex fs, h => by
    show rehydrate (taggedDict "Index" (convertPureF fs)) = some (.pobj "Index" (loadOfF fs))
    have hf := rehydPureF fs (by simpa [noTag] using h)
    rw [rehydrate_tagged, if_neg (by decide), if_pos rfl]
    conv_lhs => rw [rehydrate]
    rw [hf.1, hf.2]
    rfl

theorem rehydPureL : ∀ (xs : GoodList), noTagL xs = true →
    rehydrateList (convertPureL xs) = some (loadOfL xs)
  | .nil, _ => rfl
  | .cons v vs, h => by
    have hv : noTag v = true := by
      simp only [noTagL, Bool.and_eq_true] at h
      exact h.1
    have hvs : noTagL vs = true := by
      simp only [noTagL, Bool.and_eq_true] at h
      exact h.2
    show rehydrateList (.cons (convertPure v) (convertPureL vs)) = _
    conv_lhs => rw [rehydrateList]
    rw [rehydPure v hv, rehydPureL vs hvs]
    rfl

theorem rehydPureD : ∀ (kvs : GoodPairs), noTagD kvs = true →
    plookup (convertPureD kvs) (.pstr "__custom_type__") = none ∧
    collectPairs (rehydratePairs (convertPureD kvs)) = some (loadOfD kvs)
  | .nil, _ => ⟨rfl, rfl⟩
  | .cons k v kvs, h => by
    have hk : (k == GScalar.gs "__custom_type__") = false := by
      simp only [noTagD, Bool.and_eq_true] at h
      simpa using h.1.1
    have hv : noTag v = true := by
      simp only [noTagD, Bool.and_eq_true] at h
      exact h.1.2
    have hrest := rehydPureD kvs (by
      simp only [noTagD, Bool.and_eq_true] at h
      exact h.2)
    constructor
    · show plookup (.cons (scalarTree k) (convertPure v) (convertPureD kvs)) _ = none
      conv_lhs => rw [plookup]
      rw [if_neg (scalarTree_ne_tagKey hk)]
      exact hrest.1
    · show collectPairs (rehydratePairs
        (.cons (scalarTree k) (convertPure v) (convertPureD kvs))) = _
      conv_lhs => rw [rehydratePairs]
      rw [rehydPure v hv]
      show (collectPairs (rehydratePairs (convertPureD kvs))).map _ = _
      rw [hrest.2]
      rfl

theorem rehydPureF : ∀ (fs : GoodFields), noTagF fs = true →
    plookup (convertPureF fs) (.pstr "__custom_type__") = none ∧
    collectPairs (rehydratePairs (convertPureF fs)) = some (loadOfF fs)
  | .nil, _ => ⟨rfl, rfl⟩
  | .cons k v fs, h => by
    have hk : ¬ (PyTree.pstr k) = (.pstr "__custom_type__") := by
      simp only [noTagF, Bool.and_eq_true] at h
      simpa using h.1.1
    have hv : noTag v = true := by
      simp only [noTagF, Bool.and_eq_true] at h
      exact h.1.2
    have hrest := rehydPureF fs (by
      simp only [noTagF, Bool.and_eq_true] at h
      exact h.2)
    constructor
    · show plookup (.cons (.pstr k) (convertPure v) (convertPureF fs)) _ = none
      conv_lhs => rw [plookup]
      rw [if_neg hk]
      exact hrest.1
    · show collectPairs (rehydratePairs
        (.cons (.pstr k) (convertPure v) (convertPureF fs))) = _
      conv_lhs => rw [rehydratePairs]
      rw [rehydPure v hv]
      show (collectPairs (rehydratePairs (convertPureF fs))).map _ = _
      rw [hrest.2]
      rfl
end

/-! Structure of the heaps laid out by `alloc`. -/

theorem spanOK_le : ∀ {es : Heap} {lo hi : Nat}, SpanOK es lo hi → lo ≤ hi := by
  intro es
  induction es with
  | nil => intro lo hi h; exact h
  | cons p rest ih =>
    intro lo hi h
    obtain ⟨k, n⟩ := p
    obtain ⟨h1, h2, h3⟩ := h
    omega

theorem spanOK_weaken_lo : ∀ {es : Heap} {lo mid hi : Nat},
    SpanOK es mid hi → lo ≤ mid → SpanOK es lo hi := by
  intro es
  induction es with
  | nil => intro lo mid hi h hle; exact le_trans hle h
  | cons p rest ih =>
    intro lo mid hi h hle
    obtain ⟨k, n⟩ := p
    obtain ⟨h1, h2, h3⟩ := h
    exact ⟨le_trans hle h1, h2, h3⟩

theorem spanOK_append : ∀ {es1 es2 : Heap} {lo mid hi : Nat},
    SpanOK es1 lo mid → SpanOK es2 mid hi → SpanOK (es1 ++ es2) lo hi := by
  intro es1
  induction es1 with
  | nil => intro es2 lo mid hi h1 h2; exact spanOK_weaken_lo h2 h1
  | cons p rest ih =>
    intro es2 lo mid hi h1 h2
    obtain ⟨k, n⟩ := p
    obtain ⟨ha, hb, hc⟩ := h1
    exact ⟨ha, lt_of_lt_of_le hb (spanOK_le h2), ih hc h2⟩

theorem spanOK_mem : ∀ {es : Heap} {lo hi : Nat} {p : Nat × PyNode},
    SpanOK es lo hi → p ∈ es → lo ≤ p.1 ∧ p.1 < hi := by
  intro es
  induction es with
  | nil => intro lo hi p _ hp; simp at hp
  | cons q rest ih =>
    intro lo hi p h hp
    obtain ⟨k, n⟩ := q
    obtain ⟨h1, h2, h3⟩ := h
    rcases List.mem_cons.mp hp with hp | hp
    · subst hp; exact ⟨h1, h2⟩
    · have := ih h3 hp
      omega

theorem spanOK_lookup : ∀ {es : Heap} {lo hi k : Nat} {n : PyNode},
    SpanOK es lo hi → (k, n) ∈ es → hlookup es k = some n := by
  intro es
  induction es with
  | nil => intro lo hi k n _ hp; simp at hp
  | cons q rest ih =>
    intro lo hi k n h hp
    obtain ⟨k0, n0⟩ := q
    obtain ⟨h1, h2, h3⟩ := h
    rcases List.mem_cons.mp hp with hp | hp
    · rw [Prod.mk.injEq] at hp
      obtain ⟨hk, hn⟩ := hp
      subst hk
      subst hn
      simp [hlookup]
    · have hb := spanOK_mem h3 hp
      simp only [hlookup]
      rw [if_neg (by omega)]
      exact ih h3 hp

mutual
theorem allocSpan : ∀ (v : GoodVal) (c : Nat),
    SpanOK (alloc v c).1 c (alloc v c).2 ∧ c < (alloc v c).2
  | .scal x, c => by simp only [alloc, SpanOK]; omega
  | .glist xs, c => by
    have hL := allocSpanL xs (c + 1)
    have h2 := hL.2
    simp only [alloc, SpanOK]
    exact ⟨⟨le_refl c, by omega, hL.1⟩, by omega⟩
  | .gdict kvs, c => by
    have hD := allocSpanD kvs (c + 1)
    have h2 := hD.2
    simp only [alloc, SpanOK]
    exact ⟨⟨le_refl c, by omega, hD.1⟩, by omega⟩
  | .gtable fs, c => by
    have hF := allocSpanF fs (c + 1)
    have h2 := hF.2
    simp only [alloc, SpanOK]
    exact ⟨⟨le_refl c, by omega, hF.1⟩, by omega⟩
  | .gindex fs, c => by
    have hF := allocSpanF fs (c + 1)
    have h2 := hF.2
    simp only [alloc, SpanOK]
    exact ⟨⟨le_refl c, by omega, hF.1⟩, by omega⟩

theorem allocSpanL : ∀ (xs : GoodList) (c : Nat),
    SpanOK (allocL xs c).1 c (allocL xs c).2.2 ∧ c ≤ (allocL xs c).2.2
  | .nil, c => by simp only [allocL, SpanOK]; omega
  | .cons v vs, c => by
    have h1 := allocSpan v c
    have h2 := allocSpanL vs (alloc v c).2
    have h1b := h1.2
    have h2b := h2.2
    simp only [allocL]
    exact ⟨spanOK_append h1.1 h2.1, by omega⟩

theorem allocSpanD : ∀ (kvs : GoodPairs) (c : Nat),
    SpanOK (allocD kvs c).1 c (allocD kvs c).2.2 ∧ c ≤ (allocD kvs c).2.2
  | .nil, c => by simp only [allocD, SpanOK]; omega
  | .cons k v kvs, c => by
    have h1 := allocSpan v (c + 1)
    have h2 := allocSpanD kvs (alloc v (c + 1)).2
    have h1b := h1.2
    have h2b := h2.2
    simp only [allocD, SpanOK]
    exact ⟨⟨le_refl c, by omega, spanOK_append h1.1 h2.1⟩, by omega⟩

theorem allocSpanF : ∀ (fs : GoodFields) (c : Nat),
    SpanOK (allocF fs c).1 c (allocF fs c).2.2 ∧ c ≤ (allocF fs c).2.2
  | .nil, c => by simp only [allocF, SpanOK]; omega
  | .cons k v fs, c => by
    have h1 := allocSpan v c
    have h2 := allocSpanF fs (alloc v c).2
    have h1b := h1.2
    have h2b := h2.2
    simp only [allocF]
    exact ⟨spanOK_append h1.1 h2.1, by omega⟩
end

/-- Converting a scalar object: its own value comes straight back. -/
theorem convertScalar {fuel : Nat} {H : Heap} {seen : List Nat} {i : Nat}
    {k : GScalar} (hl : hlookup H i = some (scalarNode k)) (hm : i ∉ seen) :
    convertFuel (fuel + 1) H seen i = some (scalarTree k) := by
  cases k with
  | gs x => exact convertFuel_nstr hl hm
  | gi n => exact convertFuel_nint hl hm
  | gb b => exact convertFuel_nbool hl hm
  | gnull => exact convertFuel_nnone hl hm

/- The serializer agrees with `convertPure` on every heap laid out by
`alloc`: running `convert_to_serializable` from the root, inside any
larger heap `H` that contains the laid-out entries, with any active path
of ids below the allocation range, produces exactly the pure serialized
tree.  Fuel is bounded by the id span, which bounds the recursion depth. -/
mutual
theorem convAlloc : ∀ (v : GoodVal) (c : Nat) (H : Heap) (seen : List Nat) (fuel : Nat),
    (∀ p ∈ (alloc v c).1, hlookup H p.1 = some p.2) →
    (∀ j ∈ seen, j < c) →
    (alloc v c).2 ≤ c + fuel →
    convertFuel fuel H seen c = some (convertPure v)
  | .scal x => by
    intro c H seen fuel hEmb hseen hfuel
    simp only [alloc] at hEmb hfuel
    obtain ⟨f, rfl⟩ : ∃ f, fuel = f + 1 := ⟨fuel - 1, by omega⟩
    have hroot : hlookup H c = some (scalarNode x) := hEmb (c, scalarNode x) (by simp)
    have hcn : c ∉ seen := fun hin => absurd (hseen c hin) (lt_irrefl c)
    exact convertScalar hroot hcn
  | .glist xs => by
    intro c H seen fuel hEmb hseen hfuel
    have hspan := (allocSpan (.glist xs) c).2
    obtain ⟨f, rfl⟩ : ∃ f, fuel = f + 1 := ⟨fuel - 1, by omega⟩
    simp only [alloc] at hEmb hfuel
    have hroot : hlookup H c = some (.nlist (allocL xs (c + 1)).2.1) :=
      hEmb (c, .nlist (allocL xs (c + 1)).2.1) (List.mem_cons_self _ _)
    have hcn : c ∉ seen := fun hin => absurd (hseen c hin) (lt_irrefl c)
    rw [convertFuel_nlist hroot hcn]
    have hrec := convAllocL xs (c + 1) H (c :: seen) f
      (fun p hp => hEmb p (List.mem_cons_of_mem _ hp))
      (by
        intro j hj
        rcases List.mem_cons.mp hj with hj | hj
        · omega
        · have := hseen j hj
          omega)
      (by omega)
    rw [hrec]
    rfl
  | .gdict kvs => by
    intro c H seen fuel hEmb hseen hfuel
    have hspan := (allocSpan (.gdict kvs) c).2
    obtain ⟨f, rfl⟩ : ∃ f, fuel = f + 1 := ⟨fuel - 1, by omega⟩
    simp only [alloc] at hEmb hfuel
    have hroot : hlookup H c = some (.ndict (allocD kvs (c + 1)).2.1) :=
      hEmb (c, .ndict (allocD kvs (c + 1)).2.1) (List.mem_cons_self _ _)
    have hcn : c ∉ seen := fun hin => absurd (hseen c hin) (lt_irrefl c)
    rw [convertFuel_ndict hroot hcn]
    have hrec := convAllocD kvs (c + 1) H (c :: seen) f
      (fun p hp => hEmb p (List.mem_cons_of_mem _ hp))
      (by
        intro j hj
        rcases List.mem_cons.mp hj with hj | hj
        · omega
        · have := hseen j hj
          omega)
      (by omega)
    rw [hrec]
    rfl
  | .gtable fs => by
    intro c H seen fuel hEmb hseen hfuel
    have hspan := (allocSpan (.gtable fs) c).2
    obtain ⟨f, rfl⟩ : ∃ f, fuel = f + 1 := ⟨fuel - 1, by omega⟩
    simp only [alloc] at hEmb hfuel
    have hroot : hlookup H c = some (.nobj "Table" (allocF fs (c + 1)).2.1) :=
      hEmb (c, .nobj "Table" (allocF fs (c + 1)).2.1) (List.mem_cons_self _ _)
    have hcn : c ∉ seen := fun hin => absurd (hseen c hin) (lt_irrefl c)
    rw [convertFuel_nobj hroot hcn]
    have hrec := convAllocF fs (c + 1) H (c :: seen) f
      (fun p hp => hEmb p (List.mem_cons_of_mem _ hp))
      (by
        intro j hj
        rcases List.mem_cons.mp hj with hj | hj
        · omega
        · have := hseen j hj
          omega)
      (by omega)
    rw [hrec]
    rfl
  | .gindex fs => by
    intro c H seen fuel hEmb hseen hfuel
    have hspan := (allocSpan (.gindex fs) c).2
    obtain ⟨f, rfl⟩ : ∃ f, fuel = f + 1 := ⟨fuel - 1, by omega⟩
    simp only [alloc] at hEmb hfuel
    have hroot : hlookup H c = some (.nobj "Index" (allocF fs (c + 1)).2.1) :=
      hEmb (c, .nobj "Index" (allocF fs (c + 1)).2.1) (List.mem_cons_self _ _)
    have hcn : c ∉ seen := fun hin => absurd (hseen c hin) (lt_irrefl c)
    rw [convertFuel_nobj hroot hcn]
    have hrec := convAllocF fs (c + 1) H (c :: seen) f
      (fun p hp => hEmb p (List.mem_cons_of_mem _ hp))
      (by
        intro j hj
        rcases List.mem_cons.mp hj with hj | hj
        · omega
        · have := hseen j hj
          omega)
      (by omega)
    rw [hrec]
    rfl

theorem convAllocL : ∀ (xs : GoodList) (c : Nat) (H : Heap) (seen : List Nat) (fuel : Nat),
    (∀ p ∈ (allocL xs c).1, hlookup H p.1 = some p.2) →
    (∀ j ∈ seen, j < c) →
    (allocL xs c).2.2 ≤ c + fuel →
    convIds (convertFuel fuel H seen) (allocL xs c).2.1 = some (convertPureL xs)
  | .nil => by
    intro c H seen fuel _ _ _
    rfl
  | .cons v vs => by
    intro c H seen fuel hEmb hseen hfuel
    have hsv := (allocSpan v c).2
    have hsr := (allocSpanL vs (alloc v c).2).2
    simp only [allocL] at hEmb hfuel ⊢
    have hv : convertFuel fuel H seen c = some (convertPure v) :=
      convAlloc v c H seen fuel
        (fun p hp => hEmb p (List.mem_append_left _ hp))
        hseen (by omega)
    have hrest : convIds (convertFuel fuel H seen) (allocL vs (alloc v c).2).2.1 =
        some (convertPureL vs) :=
      convAllocL vs (alloc v c).2 H seen fuel
        (fun p hp => hEmb p (List.mem_append_right _ hp))
        (by
          intro j hj
          have := hseen j hj
          omega)
        (by omega)
    conv_lhs => rw [convIds]
    rw [hv, hrest]
    rfl

theorem convAllocD : ∀ (kvs : GoodPairs) (c : Nat) (H : Heap) (seen : List Nat) (fuel : Nat),
    (∀ p ∈ (allocD kvs c).1, hlookup H p.1 = some p.2) →
    (∀ j ∈ seen, j < c) →
    (allocD kvs c).2.2 ≤ c + fuel →
    convPairs (convertFuel fuel H seen) (allocD kvs c).2.1 = some (convertPureD kvs)
  | .nil => by
    intro c H seen fuel _ _ _
    rfl
  | .cons k v kvs => by
    intro c H seen fuel hEmb hseen hfuel
    have hsv := (allocSpan v (c + 1)).2
    have hsr := (allocSpanD kvs (alloc v (c + 1)).2).2
    simp only [allocD] at hEmb hfuel ⊢
    obtain ⟨f, rfl⟩ : ∃ f, fuel = f + 1 := ⟨fuel - 1, by omega⟩
    have hcn : c ∉ seen := fun hin => absurd (hseen c hin) (lt_irrefl c)
    have hkey : hlookup H c = some (scalarNode k) :=
      hEmb (c, scalarNode k) (List.mem_cons_self _ _)
    have hk : convertFuel (f + 1) H seen c = some (scalarTree k) :=
      convertScalar hkey hcn
    have hv : convertFuel (f + 1) H seen (c + 1) = some (convertPure v) :=
      convAlloc v (c + 1) H seen (f + 1)
        (fun p hp => hEmb p
          (List.mem_cons_of_mem _ (List.mem_append_left _ hp)))
        (by
          intro j hj
          have := hseen j hj
          omega)
        (by omega)
    have hrest : convPairs (convertFuel (f + 1) H seen)
        (allocD kvs (alloc v (c + 1)).2).2.1 = some (convertPureD kvs) :=
      convAllocD kvs (alloc v (c + 1)).2 H seen (f + 1)
        (fun p hp => hEmb p
          (List.mem_cons_of_mem _ (List.mem_append_right _ hp)))
        (by
          intro j hj
          have := hseen j hj
          omega)
        (by omega)
    conv_lhs => rw [convPairs]
    rw [hk, hv, hrest]
    rfl

theorem convAllocF : ∀ (fs : GoodFields) (c : Nat) (H : Heap) (seen : List Nat) (fuel : Nat),
    (∀ p ∈ (allocF fs c).1, hlookup H p.1 = some p.2) →
    (∀ j ∈ seen, j < c) →
    (allocF fs c).2.2 ≤ c + fuel →
    convFields (convertFuel fuel H seen) (allocF fs c).2.1 = some (convertPureF fs)
  | .nil => by
    intro c H seen fuel _ _ _
    rfl
  | .cons k v fs => by
    intro c H seen fuel hEmb hseen hfuel
    have hsv := (allocSpan v c).2
    have hsr := (allocSpanF fs (alloc v c).2).2
    simp only [allocF] at hEmb hfuel ⊢
    have hv : convertFuel fuel H seen c = some (convertPure v) :=
      convAlloc v c H seen fuel
        (fun p hp => hEmb p (List.mem_append_left _ hp))
        hseen (by omega)
    have hrest : convFields (convertFuel fuel H seen)
        (allocF fs (alloc v c).2).2.1 = some (convertPureF fs) :=
      convAllocF fs (alloc v c).2 H seen fuel
        (fun p hp => hEmb p (List.mem_append_right _ hp))
        (by
          intro j hj
          have := hseen j hj
          omega)
        (by omega)
    conv_lhs => rw [convFields]
    rw [hv, hrest]
    rfl
end

/-- C1 (amended): the save/load round trip
(`rehydrate` after msgpack-unpack after msgpack-pack after
`convert_to_serializable`, the msgpack pair being the identity on the
serialized tree) restores a table's durable state exactly — `select`-visible
fields, `Index` contents and metadata included — PROVIDED the table's
reachable state is an acyclic object graph of scalars, lists, scalar-keyed
dicts and nested `Table`/`Index` instances with no key named
`"__custom_type__"`.  It is NOT exact for arbitrary tables: fields holding
any other object kind (pages, bufferpool), tuples or sets are not restored
as such (see the counterexample). -/
theorem spec_c1_roundtrip (v : GoodVal) (h : noTag v = true) :
    convertFuel (alloc v 0).2 (alloc v 0).1 [] 0 = some (convertPure v) ∧
    rehydrate (convertPure v) = some (loadOf v) := by
  constructor
  · apply convAlloc v 0 (alloc v 0).1 [] (alloc v 0).2
    · intro p hp
      obtain ⟨k, n⟩ := p
      exact spanOK_lookup (allocSpan v 0).1 hp
    · intro j hj
      simp at hj
    · omega
  · exact rehydPure v h

/-- Witness for C1 (amended) on a concrete table with metadata scalars, a
nested `Index` instance and a list field. -/
theorem spec_c1_roundtrip_witness :
    convertFuel (alloc vW 0).2 (alloc vW 0).1 [] 0 = some (convertPure vW) ∧
    rehydrate (convertPure vW) = some (loadOf vW) :=
  spec_c1_roundtrip vW (by decide)

/-- C1 is false as stated: on the table graph `hPage`, whose durable state
holds a `Page` object, the round trip yields a table whose `"page"` field
is the tagged plain dict `pageReloaded`, not a `Page` instance — the
reloaded durable state is distinguishable from the pre-save state. -/
theorem spec_c1_roundtrip_counterexample :
    hlookup hPage 2 = some (.nobj "Page" [("data", 3)]) ∧
    convertFuel 5 hPage [] 0 = some pageBlob ∧
    rehydrate pageBlob =
      some (.pobj "Table" (.cons (.pstr "name") (.pstr "t")
        (.cons (.pstr "page") pageReloaded .nil))) ∧
    isObjTree pageReloaded = false := by
  refine ⟨rfl, by decide, by decide, rfl⟩

/-! Association-list lemmas for the table mapping. -/

theorem assocLookup_assocSet : ∀ (ts : List (String × PyTree)) (n : String) (t : PyTree),
    assocLookup (assocSet ts n t) n = some t := by
  intro ts n t
  induction ts with
  | nil => simp [assocSet, assocLookup]
  | cons p rest ih =>
    obtain ⟨k, v⟩ := p
    by_cases hk : k = n
    · simp [assocSet, hk, assocLookup]
    · simp only [assocSet, if_neg hk, assocLookup]
      exact ih

theorem assocLookup_assocRemove : ∀ (ts : List (String × PyTree)) (n : String),
    assocLookup (assocRemove ts n) n = none := by
  intro ts n
  induction ts with
  | nil => rfl
  | cons p rest ih =>
    obtain ⟨k, v⟩ := p
    by_cases hk : k = n
    · have he : assocRemove ((k, v) :: rest) n = assocRemove rest n := by
        simp [assocRemove, List.filter_cons, hk]
      rw [he]
      exact ih
    · have he : assocRemove ((k, v) :: rest) n = (k, v) :: assocRemove rest n := by
        simp [assocRemove, List.filter_cons, hk]
      rw [he]
      simp only [assocLookup, if_neg hk]
      exact ih

/-- C3 is false as stated: `close` on a database with a set path and a
dirty bufferpool frame succeeds and writes the table blob, but performs no
Bufferpool flush — the state (dirty frame included) is untouched, and
flushing would have changed it. -/
theorem spec_c3_close_counterexample :
    dbClose dbDirty =
      .ok (dbDirty, [.fwrite "d/t.tbl" (.packed (convertT tFix))]) ∧
    dbDirty.bufferpool.frames = [⟨true⟩] ∧
    flushAll dbDirty.bufferpool ≠ dbDirty.bufferpool := by
  refine ⟨rfl, rfl, by decide⟩

/-- C3 (amended): `Database.close` fails with the NoPathSet error exactly
when no (non-empty) directory path was established by `open`; otherwise it
writes every registered table's serialized blob to that table's file —
leaving no table unwritten and the state unchanged.  Unlike the spec's
sentence, it does not flush the Bufferpool (no flush appears in the
method; see the counterexample). -/
theorem spec_c3_close (db : DB) :
    (dbClose db = .error .noPathSet ↔
      (db.db_path = none ∨ db.db_path = some "")) ∧
    (∀ p, db.db_path = some p → p ≠ "" →
      dbClose db = .ok (db, db.tables.map (fun nt =>
        .fwrite (tblPath p nt.1) (.packed (convertT nt.2))))) := by
  constructor
  · cases hp : db.db_path with
    | none => simp [dbClose, hp]
    | some p =>
      by_cases hpe : p = ""
      · subst hpe
        simp [dbClose, hp]
      · simp [dbClose, hp, hpe]
  · intro p hp hpe
    simp [dbClose, hp, hpe]

/-- Witness for C3 (amended) on `dbDirty`. -/
theorem spec_c3_close_witness :
    dbClose dbDirty = .ok (dbDirty, dbDirty.tables.map (fun nt =>
      .fwrite (tblPath "d" nt.1) (.packed (convertT nt.2)))) :=
  (spec_c3_close dbDirty).2 "d" rfl (by decide)

/-- C4: `create_table` fails with `InvalidKeyIndex` whenever `key_index`
lies outside `[0, num_columns)`, and then registers nothing (no success
value exists).  The validation lives in the spec-modelled `Table`
constructor (`mkTable`), since `lstore.table` is not under `src/` and
`Database.create_table` itself checks nothing. -/
theorem spec_c4_create_invalid_key (db : DB) (name : String) (nc ki : Int)
    (h : ¬ (0 ≤ ki ∧ ki < nc)) :
    createTable db name nc ki = .error .invalidKeyIndex ∧
    ∀ r, createTable db name nc ki ≠ .ok r := by
  have hm : mkTable name nc ki = .error .invalidKeyIndex := by
    simp [mkTable, h]
  constructor
  · simp [createTable, hm]
  · intro r hr
    simp [createTable, hm] at hr

/-- Witness for C4: key index 5 on a 3-column table. -/
theorem spec_c4_create_invalid_key_witness :
    createTable (dbInit 10) "g" 3 5 = .error .invalidKeyIndex :=
  (spec_c4_create_invalid_key (dbInit 10) "g" 3 5 (by decide)).1

/-- C5 is false as stated: with `"t"` already registered, a second
`create_table("t", 2, 0)` raises nothing — it succeeds and silently
replaces the previously registered table in the mapping. -/
theorem spec_c5_duplicate_counterexample :
    assocHas dbOld.tables "t" = true ∧
    createTable dbOld "t" 2 0 =
      .ok (⟨[("t", .pobj "Table" (.cons (.pstr "name") (.pstr "t")
            (.cons (.pstr "num_columns") (.pint 2)
              (.cons (.pstr "key") (.pint 0)
                (.cons (.pstr "next_rid") (.pint 0) .nil)))))],
          some "d", ⟨10, []⟩⟩,
        .pobj "Table" (.cons (.pstr "name") (.pstr "t")
          (.cons (.pstr "num_columns") (.pint 2)
            (.cons (.pstr "key") (.pint 0)
              (.cons (.pstr "next_rid") (.pint 0) .nil))))) ∧
    (match createTable dbOld "t" 2 0 with
     | .ok _ => true
     | .error _ => false) = true := by
  exact ⟨rfl, rfl, rfl⟩

/-- C5 (amended): `create_table` on an already registered name (with a
valid key index) raises no `DuplicateTable`; it succeeds, and the mapping
afterwards binds the name to the new table — the previous registration is
overwritten, not preserved. -/
theorem spec_c5_duplicate_overwrites (db : DB) (name : String) (nc ki : Int)
    (t : PyTree) (hmk : mkTable name nc ki = .ok t)
    (hreg : assocHas db.tables name = true) :
    createTable db name nc ki =
      .ok ({ db with tables := assocSet db.tables name t }, t) ∧
    assocLookup (assocSet db.tables name t) name = some t := by
  constructor
  · simp [createTable, hmk]
  · exact assocLookup_assocSet db.tables name t

/-- Witness for C5 (amended) on `dbOld`. -/
theorem spec_c5_duplicate_overwrites_witness :
    createTable dbOld "t" 2 0 =
      .ok (⟨assocSet dbOld.tables "t"
          (.pobj "Table" (.cons (.pstr "name") (.pstr "t")
            (.cons (.pstr "num_columns") (.pint 2)
              (.cons (.pstr "key") (.pint 0)
                (.cons (.pstr "next_rid") (.pint 0) .nil))))),
          some "d", ⟨10, []⟩⟩,
        .pobj "Table" (.cons (.pstr "name") (.pstr "t")
          (.cons (.pstr "num_columns") (.pint 2)
            (.cons (.pstr "key") (.pint 0)
              (.cons (.pstr "next_rid") (.pint 0) .nil))))) ∧
    assocLookup (assocSet dbOld.tables "t"
        (.pobj "Table" (.cons (.pstr "name") (.pstr "t")
          (.cons (.pstr "num_columns") (.pint 2)
            (.cons (.pstr "key") (.pint 0)
              (.cons (.pstr "next_rid") (.pint 0) .nil))))))
      "t" =
      some (.pobj "Table" (.cons (.pstr "name") (.pstr "t")
        (.cons (.pstr "num_columns") (.pint 2)
          (.cons (.pstr "key") (.pint 0)
            (.cons (.pstr "next_rid") (.pint 0) .nil))))) :=
  spec_c5_duplicate_overwrites dbOld "t" 2 0 _ rfl rfl

/-- C7 is false as stated: on `dbOld`, `close` emits exactly one file
operation — a write of the packed blob directly to the final path
`d/t.tbl` — and no rename (hence no temporary location) occurs. -/
theorem spec_c7_atomic_write_counterexample :
    dbClose dbOld = .ok (dbOld,
      [.fwrite "d/t.tbl" (.packed (.pdict
        (.cons (.pstr "__custom_type__") (.pstr "Table")
          (.cons (.pstr "state")
            (.pdict (.cons (.pstr "num_columns") (.pint 9) .nil)) .nil))))]) ∧
    ([FsOp.fwrite "d/t.tbl" (.packed (.pdict
        (.cons (.pstr "__custom_type__") (.pstr "Table")
          (.cons (.pstr "state")
            (.pdict (.cons (.pstr "num_columns") (.pint 9) .nil)) .nil))))]).any
      isRename = false :=
  ⟨rfl, rfl⟩

/-- C7 (amended): `close` writes each table's blob with a single direct
write to the final path `p/name.tbl`; the operation trace contains only
direct writes and never a rename — there is no temporary file and no
atomic-rename step, so an interruption can leave a half-written file. -/
theorem spec_c7_direct_write (db : DB) (p : String)
    (hp : db.db_path = some p) (hpe : p ≠ "") :
    dbClose db = .ok (db, db.tables.map (fun nt =>
      .fwrite (tblPath p nt.1) (.packed (convertT nt.2)))) ∧
    (db.tables.map (fun nt =>
      FsOp.fwrite (tblPath p nt.1) (.packed (convertT nt.2)))).all
        isDirectWrite = true ∧
    (db.tables.map (fun nt =>
      FsOp.fwrite (tblPath p nt.1) (.packed (convertT nt.2)))).any
        isRename = false := by
  refine ⟨by simp [dbClose, hp, hpe], ?_, ?_⟩
  · generalize db.tables = ts
    induction ts with
    | nil => rfl
    | cons q rest ih => simpa [isDirectWrite] using ih
  · generalize db.tables = ts
    induction ts with
    | nil => rfl
    | cons q rest ih => simpa [isRename] using ih

/-- Witness for C7 (amended) on `dbDirty`. -/
theorem spec_c7_direct_write_witness :
    dbClose dbDirty = .ok (dbDirty, dbDirty.tables.map (fun nt =>
      .fwrite (tblPath "d" nt.1) (.packed (convertT nt.2)))) ∧
    (dbDirty.tables.map (fun nt =>
      FsOp.fwrite (tblPath "d" nt.1) (.packed (convertT nt.2)))).all
        isDirectWrite = true ∧
    (dbDirty.tables.map (fun nt =>
      FsOp.fwrite (tblPath "d" nt.1) (.packed (convertT nt.2)))).any
        isRename = false :=
  spec_c7_direct_write dbDirty "d" rfl (by decide)

/-- C9: `drop_table(name)` with a directory path set removes a registered
name from the in-memory table mapping (the name no longer resolves) and
deletes its backing file `p/name.tbl`; for an unregistered name it is a
no-op — no error, no state change, no file operation. -/
theorem spec_c9_drop_table (db : DB) (name : String) (p : String)
    (hp : db.db_path = some p) :
    (assocHas db.tables name = true →
      dropTable db name = .ok ({ db with tables := assocRemove db.tables name },
        [.fremove (tblPath p name)]) ∧
      assocLookup (assocRemove db.tables name) name = none) ∧
    (assocHas db.tables name = false →
      dropTable db name = .ok (db, [])) := by
  constructor
  · intro hreg
    exact ⟨by simp [dropTable, hreg, hp], assocLookup_assocRemove db.tables name⟩
  · intro hreg
    simp [dropTable, hreg]

/-- Witness for C9: dropping the registered `"t"` removes it and its
file; dropping the unknown `"ghost"` changes nothing. -/
theorem spec_c9_drop_table_witness :
    (dropTable dbDirty "t" =
      .ok ({ dbDirty with tables := assocRemove dbDirty.tables "t" },
        [.fremove (tblPath "d" "t")]) ∧
     assocLookup (assocRemove dbDirty.tables "t") "t" = none) ∧
    dropTable dbDirty "ghost" = .ok (dbDirty, []) :=
  ⟨(spec_c9_drop_table dbDirty "t" "d" rfl).1 rfl,
   (spec_c9_drop_table dbDirty "ghost" "d" rfl).2 rfl⟩

/-- C10: `get_table` is a total function (it can never raise): it returns
exactly the mapping's binding for the name, absent when none exists; and
after `open` on a fresh (previously absent) directory from a fresh
database, every lookup is absent. -/
theorem spec_c10_get_table (db : DB) (name : String) (size : Nat)
    (path : String) (db2 : DB) (ws : List String)
    (h : dbOpen (dbInit size) path .absent = .ok (db2, ws)) :
    getTable db name = assocLookup db.tables name ∧
    getTable db2 name = none := by
  refine ⟨rfl, ?_⟩
  have h0 : dbOpen (dbInit size) path .absent =
      .ok (⟨[], some path, ⟨size, []⟩⟩, []) := rfl
  rw [h0] at h
  injection h with h1
  rw [Prod.mk.injEq] at h1
  rw [← h1.1]
  rfl

/-- Witness for C10 on a fresh database opened at an absent directory. -/
theorem spec_c10_get_table_witness :
    getTable dbDirty "anything" = assocLookup dbDirty.tables "anything" ∧
    getTable ⟨[], some "fresh", ⟨10, []⟩⟩ "anything" = none :=
  spec_c10_get_table dbDirty "anything" 10 "fresh" ⟨[], some "fresh", ⟨10, []⟩⟩ [] rfl

/-- C8: the `open` loop skips every zero-byte `.tbl` file with a recorded
warning and keeps loading: the loaded tables are exactly those of the
listing with the empty `.tbl` files removed, the warnings are exactly one
per empty `.tbl` file in order, an error can only come from the remaining
files, and whenever the listing without its empty `.tbl` files loads
successfully the full listing does too — an empty file is never a hard
failure. -/
theorem spec_c8_empty_file_skipped (files : List (String × FileData)) :
    (∀ ts ws, openScan files = .ok (ts, ws) →
      openScan (files.filter
          (fun f => !(strEndsWith f.1 ".tbl" && f.2 == FileData.empty))) =
        .ok (ts, []) ∧
      ws = (files.filter
          (fun f => strEndsWith f.1 ".tbl" && f.2 == FileData.empty)).map
        (fun f => warnMsg f.1)) ∧
    (∀ e, openScan files = .error e →
      openScan (files.filter
          (fun f => !(strEndsWith f.1 ".tbl" && f.2 == FileData.empty))) =
        .error e) ∧
    (∀ ts ws, openScan (files.filter
          (fun f => !(strEndsWith f.1 ".tbl" && f.2 == FileData.empty))) =
        .ok (ts, ws) →
      ∃ ws2, openScan files = .ok (ts, ws2)) := by
  induction files with
  | nil =>
    refine ⟨?_, ?_, ?_⟩
    · intro ts ws h
      have h0 : openScan [] =
          Except.ok (([] : List (String × PyTree)), ([] : List String)) := rfl
      rw [h0] at h
      injection h with h1
      rw [Prod.mk.injEq] at h1
      obtain ⟨hts, hws⟩ := h1
      subst hts
      subst hws
      exact ⟨rfl, rfl⟩
    · intro e h
      exact absurd h (by simp [openScan])
    · intro ts ws h
      exact ⟨ws, h⟩
  | cons f rest ih =>
    obtain ⟨fname, d⟩ := f
    obtain ⟨ih1, ih2, ih3⟩ := ih
    by_cases hb : strEndsWith fname ".tbl" = true
    · cases d with
      | empty =>
        have hfk : ((fname, FileData.empty) :: rest).filter
            (fun f => !(strEndsWith f.1 ".tbl" && f.2 == FileData.empty)) =
            rest.filter
              (fun f => !(strEndsWith f.1 ".tbl" && f.2 == FileData.empty)) := by
          simp [List.filter_cons, hb]
        have hfe : ((fname, FileData.empty) :: rest).filter
            (fun f => strEndsWith f.1 ".tbl" && f.2 == FileData.empty) =
            (fname, FileData.empty) :: rest.filter
              (fun f => strEndsWith f.1 ".tbl" && f.2 == FileData.empty) := by
          simp [List.filter_cons, hb]
        have hopen : openScan ((fname, FileData.empty) :: rest) =
            match openScan rest with
            | .ok (ts, ws) => .ok (ts, warnMsg fname :: ws)
            | .error e => .error e := by
          simp [openScan, hb]
        refine ⟨?_, ?_, ?_⟩
        · intro ts ws h
          rw [hopen] at h
          cases hsc : openScan rest with
          | ok pr =>
            obtain ⟨ts0, ws0⟩ := pr
            rw [hsc] at h
            injection h with h1
            rw [Prod.mk.injEq] at h1
            obtain ⟨hts, hws⟩ := h1
            subst hts
            subst hws
            obtain ⟨hA, hB⟩ := ih1 ts0 ws0 hsc
            refine ⟨by rw [hfk]; exact hA, ?_⟩
            rw [hfe, List.map_cons, hB]
          | error e =>
            rw [hsc] at h
            exact absurd h (by simp)
        · intro e h
          rw [hopen] at h
          cases hsc : openScan rest with
          | ok pr =>
            rw [hsc] at h
            obtain ⟨ts0, ws0⟩ := pr
            exact absurd h (by simp)
          | error e0 =>
            rw [hsc] at h
            injection h with h1
            subst h1
            rw [hfk]
            exact ih2 e0 hsc
        · intro ts ws h
          rw [hfk] at h
          obtain ⟨ws2, hw⟩ := ih3 ts ws h
          refine ⟨warnMsg fname :: ws2, ?_⟩
          rw [hopen, hw]
      | packed blob =>
        have hbe : (FileData.packed blob == FileData.empty) = false :=
          beq_eq_false_iff_ne.mpr (by simp)
        have hfk : ((fname, FileData.packed blob) :: rest).filter
            (fun f => !(strEndsWith f.1 ".tbl" && f.2 == FileData.empty)) =
            (fname, FileData.packed blob) :: rest.filter
              (fun f => !(strEndsWith f.1 ".tbl" && f.2 == FileData.empty)) := by
          simp [List.filter_cons, hbe]
        have hfe : ((fname, FileData.packed blob) :: rest).filter
            (fun f => strEndsWith f.1 ".tbl" && f.2 == FileData.empty) =
            rest.filter
              (fun f => strEndsWith f.1 ".tbl" && f.2 == FileData.empty) := by
          simp [List.filter_cons, hbe]
        have hop : ∀ tail : List (String × FileData),
            openScan ((fname, FileData.packed blob) :: tail) =
            match rehydrate blob with
            | some t =>
              (match openScan tail with
               | .ok (ts, ws) => .ok ((strDropRight fname 4, t) :: ts, ws)
               | .error e => .error e)
            | none => .error .updateNonMapping := by
          intro tail
          simp [openScan, hb]
        refine ⟨?_, ?_, ?_⟩
        · intro ts ws h
          rw [hop rest] at h
          cases hrh : rehydrate blob with
          | none =>
            rw [hrh] at h
            exact absurd h (by simp)
          | some t =>
            rw [hrh] at h
            cases hsc : openScan rest with
            | ok pr =>
              obtain ⟨ts0, ws0⟩ := pr
              rw [hsc] at h
              injection h with h1
              rw [Prod.mk.injEq] at h1
              obtain ⟨hts, hws⟩ := h1
              subst hts
              subst hws
              obtain ⟨hA, hB⟩ := ih1 ts0 ws0 hsc
              refine ⟨?_, by rw [hfe]; exact hB⟩
              rw [hfk, hop (rest.filter
                (fun f => !(strEndsWith f.1 ".tbl" && f.2 == FileData.empty))),
                hrh, hA]
            | error e =>
              rw [hsc] at h
              exact absurd h (by simp)
        · intro e h
          rw [hop rest] at h
          cases hrh : rehydrate blob with
          | none =>
            rw [hrh] at h
            injection h with h1
            subst h1
            rw [hfk, hop (rest.filter
              (fun f => !(strEndsWith f.1 ".tbl" && f.2 == FileData.empty))), hrh]
          | some t =>
            rw [hrh] at h
            cases hsc : openScan rest with
            | ok pr =>
              obtain ⟨ts0, ws0⟩ := pr
              rw [hsc] at h
              exact absurd h (by simp)
            | error e0 =>
              rw [hsc] at h
              injection h with h1
              subst h1
              rw [hfk, hop (rest.filter
                (fun f => !(strEndsWith f.1 ".tbl" && f.2 == FileData.empty))),
                hrh, ih2 e0 hsc]
        · intro ts ws h
          rw [hfk, hop (rest.filter
            (fun f => !(strEndsWith f.1 ".tbl" && f.2 == FileData.empty)))] at h
          cases hrh : rehydrate blob with
          | none =>
            rw [hrh] at h
            exact absurd h (by simp)
          | some t =>
            rw [hrh] at h
            cases hsc : openScan (rest.filter
                (fun f => !(strEndsWith f.1 ".tbl" && f.2 == FileData.empty))) with
            | ok pr =>
              obtain ⟨ts0, ws0⟩ := pr
              rw [hsc] at h
              injection h with h1
              rw [Prod.mk.injEq] at h1
              obtain ⟨hts, hws⟩ := h1
              subst hts
              subst hws
              obtain ⟨ws2, hw⟩ := ih3 ts0 ws0 hsc
              refine ⟨ws2, ?_⟩
              rw [hop rest, hrh, hw]
            | error e =>
              rw [hsc] at h
              exact absurd h (by simp)
    · have hb2 : strEndsWith fname ".tbl" = false := by
        revert hb
        cases strEndsWith fname ".tbl" <;> simp
      have hfk : ((fname, d) :: rest).filter
          (fun f => !(strEndsWith f.1 ".tbl" && f.2 == FileData.empty)) =
          (fname, d) :: rest.filter
            (fun f => !(strEndsWith f.1 ".tbl" && f.2 == FileData.empty)) := by
        simp [List.filter_cons, hb2]
      have hfe : ((fname, d) :: rest).filter
          (fun f => strEndsWith f.1 ".tbl" && f.2 == FileData.empty) =
          rest.filter
            (fun f => strEndsWith f.1 ".tbl" && f.2 == FileData.empty) := by
        simp [List.filter_cons, hb2]
      have hop : ∀ tail : List (String × FileData),
          openScan ((fname, d) :: tail) = openScan tail := by
        intro tail
        simp [openScan, hb2]
      refine ⟨?_, ?_, ?_⟩
      · intro ts ws h
        rw [hop rest] at h
        obtain ⟨hA, hB⟩ := ih1 ts ws h
        refine ⟨?_, by rw [hfe]; exact hB⟩
        rw [hfk, hop (rest.filter
          (fun f => !(strEndsWith f.1 ".tbl" && f.2 == FileData.empty)))]
        exact hA
      · intro e h
        rw [hop rest] at h
        rw [hfk, hop (rest.filter
          (fun f => !(strEndsWith f.1 ".tbl" && f.2 == FileData.empty)))]
        exact ih2 e h
      · intro ts ws h
        rw [hfk, hop (rest.filter
          (fun f => !(strEndsWith f.1 ".tbl" && f.2 == FileData.empty)))] at h
        obtain ⟨ws2, hw⟩ := ih3 ts ws h
        exact ⟨ws2, by rw [hop rest]; exact hw⟩

/-- Witness for C8 on the listing `filesW` (one loadable table file, one
zero-byte table file, one unrelated file): the scan succeeds, loads only
`"a"`, and records exactly the warning for `empty.tbl`. -/
theorem spec_c8_empty_file_skipped_witness :
    openScan (filesW.filter
        (fun f => !(strEndsWith f.1 ".tbl" && f.2 == FileData.empty))) =
      .ok ([("a", .pdict .nil)], []) ∧
    [warnMsg "empty.tbl"] = (filesW.filter
        (fun f => strEndsWith f.1 ".tbl" && f.2 == FileData.empty)).map
      (fun f => warnMsg f.1) :=
  (spec_c8_empty_file_skipped filesW).1 [("a", .pdict .nil)]
    [warnMsg "empty.tbl"] rfl

end LStoreDB
